import Mathlib

/-!
Verification development for the plugman fetch engine
(src/cordova-lib/src/plugman/fetch.js) and the platform plugin
install/uninstall mutator of this repository.

The JavaScript source is embedded shallowly: strings stay strings,
the filesystem and the collaborators (registry, git, PluginInfo) are
abstract functions supplied through an environment record, and the
side effects performed by a fetch (mkdir, clone, copy, symlink,
metadata writes) are recorded in an explicit trace.
-/

namespace Fetch

/-- A parsed plugin manifest, as produced by the PluginInfo collaborator:
its declared id, version and the directory it was loaded from. -/
structure PluginInfo where
  id : String
  version : String
  dir : String
deriving DecidableEq

/-- The searchpath option as supplied by the caller: absent, a single
string (to be split on the path delimiter), or already a list. -/
inductive SearchPathOpt where
  | absent : SearchPathOpt
  | str : String → SearchPathOpt
  | list : List String → SearchPathOpt
deriving DecidableEq

/-- Options as supplied by the caller, before the defaulting performed at
the top of fetchPlugin. -/
structure RawOptions where
  link : Bool
  subdir : Option String
  git_ref : Option String
  searchpath : SearchPathOpt
  noregistry : Bool
  expected_id : Option String
deriving DecidableEq

/-- Options after the defaulting at the top of fetchPlugin:
subdir defaulted to ".", searchpath normalized to a list. -/
structure FetchOptions where
  link : Bool
  subdir : String
  git_ref : Option String
  searchpath : List String
  noregistry : Bool
  expected_id : Option String
deriving DecidableEq

/-- JavaScript-style defaulting for an optional string option:
absent and the empty string (both falsy) fall back to the default. -/
def jsOr (v : Option String) (dflt : String) : String :=
  match v with
  | none => dflt
  | some s => if s = "" then dflt else s

/-- options.subdir = options.subdir or "."; searchpath defaulted to [] and,
when a (truthy, hence nonempty) string, split on the path delimiter. -/
def normalizeOptions (pathDelim : String) (raw : RawOptions) : FetchOptions :=
  { link := raw.link
    subdir := jsOr raw.subdir "."
    git_ref := raw.git_ref
    searchpath :=
      match raw.searchpath with
      | .absent => []
      | .str s => if s = "" then [] else s.splitOn pathDelim
      | .list l => l
    noregistry := raw.noregistry
    expected_id := raw.expected_id }

/-- Characters allowed in a URL scheme by the legacy Node url parser
(pattern: letters, digits, dot, plus, minus, followed by a colon). -/
def schemeChar (c : Char) : Bool :=
  c.isAlpha || c.isDigit || c = '.' || c = '+' || c = '-'

/-- url.parse(s).protocol: the longest leading run of scheme characters,
when it is nonempty and followed by a colon, lowercased and with the
colon appended; otherwise absent. -/
def protocolOf (s : String) : Option String :=
  let l := s.toList
  let pre := l.takeWhile schemeChar
  match pre, l.drop pre.length with
  | [], _ => none
  | _ :: _, ':' :: _ => some (String.mk (pre.map Char.toLower) ++ ":")
  | _ :: _, _ => none

/-- A word character for the drive-letter pattern: the \w class. -/
def wordChar (c : Char) : Bool :=
  c.isAlpha || c.isDigit || c = '_'

/-- plugin_src.match of a leading word run, a colon and a backslash
(the Windows drive-reference shape excluded from git-URL treatment). -/
def matchesDriveBackslash (s : String) : Bool :=
  let l := s.toList
  let pre := l.takeWhile wordChar
  match pre, l.drop pre.length with
  | [], _ => false
  | _ :: _, ':' :: '\\' :: _ => true
  | _ :: _, _ => false

/-- The git-clone condition of fetchPlugin: a protocol is present, it is
neither file: nor c:, and the string is not a word:backslash drive path. -/
def looksLikeNetworkUrl (s : String) : Bool :=
  match protocolOf s with
  | some p => p ≠ "file:" && p ≠ "c:" && !(matchesDriveBackslash s)
  | none => false

/-- url.parse(s).hash: from the first hash character to the end, when a
hash character occurs at all. -/
def uriHash (s : String) : Option String :=
  if s.toList.contains '#' then some (String.mk (s.toList.dropWhile (fun c => c ≠ '#'))) else none

/-- plugin_src.substring(0, plugin_src.indexOf(hash-char)): everything
before the first hash character. -/
def truncateAtHash (s : String) : String :=
  String.mk (s.toList.takeWhile (fun c => c ≠ '#'))

/-- Drop a single leading slash, when present (the first optional slash
of the fragment pattern). -/
def dropLeadSlash (l : List Char) : List Char :=
  match l with
  | '/' :: r => r
  | _ => l

/-- Drop a single trailing slash, when present (the second optional slash
of the fragment pattern). -/
def dropTrailSlash (l : List Char) : List Char :=
  if l.getLast? = some '/' then l.dropLast else l

/-- The fragment match performed on uri.hash: a leading hash character,
then the git ref (everything up to the first colon), then optionally a
colon and the subdir with one optional leading and one optional trailing
slash stripped (the regex groups of the pattern used in fetchPlugin). -/
def matchFragment (h : String) : Option (String × Option String) :=
  match h.toList with
  | '#' :: rest =>
      let g1 := rest.takeWhile (fun c => c ≠ ':')
      match rest.dropWhile (fun c => c ≠ ':') with
      | [] => some (String.mk g1, none)
      | _ :: tail => some (String.mk g1, some (String.mk (dropTrailSlash (dropLeadSlash tail))))
  | _ => none

/-- Update the options from the fragment match: a truthy (nonempty) first
group sets git_ref, a truthy (nonempty) second group sets subdir. -/
def applyFragment (o : FetchOptions) (g1 : String) (g2 : Option String) : FetchOptions :=
  let o1 := if g1 ≠ "" then { o with git_ref := some g1 } else o
  match g2 with
  | some s => if s ≠ "" then { o1 with subdir := s } else o1
  | none => o1

/-- path.join for the two-argument uses in fetch.js: joining with "."
is the identity, otherwise the segments are joined with a slash. -/
def pathJoin (a b : String) : String :=
  if b = "." then a else a ++ "/" ++ b

/-- The fetch-metadata object persisted by save_fetch_metadata; its type
field is the literal string stored in data.source.type. -/
inductive MetaData where
  | git (url subdir : String) (ref : Option String)
  | localMeta (path : String)
deriving DecidableEq

/-- The source.type string of a metadata record. -/
def MetaData.typeField : MetaData → String
  | .git _ _ _ => "git"
  | .localMeta _ => "local"

/-- One observable side effect performed during a fetch. -/
inductive Effect where
  | mkdirp (dir : String)
  | rmrf (dir : String)
  | gitClone (url : String)
  | registryFetch (id : String)
  | symlinked (src dest : String)
  | copied (src dest : String)
  | savedMeta (dest : String) (data : MetaData)
deriving DecidableEq

/-- The collaborators of fetch.js, abstracted as pure functions. -/
structure Env where
  fsExists : String → Bool
  loadPluginsDir : String → List PluginInfo
  pluginInfoAt : String → PluginInfo
  registryFetch : String → Except String String
  gitClone : String → String → Except String String
  pathDelim : String

/-- The process-wide localPlugins cache: absent until first built. -/
abbrev LocalCache := Option (List (String × PluginInfo))

/-- JavaScript object property assignment: overwrite any earlier binding. -/
def objInsert (m : List (String × PluginInfo)) (k : String) (v : PluginInfo) :
    List (String × PluginInfo) :=
  (k, v) :: m.filter (fun e => !(e.1 = k : Bool))

/-- JavaScript object property lookup. -/
def objGet (m : List (String × PluginInfo)) (k : String) : Option PluginInfo :=
  (m.find? (fun e => e.1 = k)).map (fun e => e.2)

/-- loadLocalPlugins: a no-op once the cache exists, otherwise scan every
search-path directory in order, inserting each found descriptor by its id
(later insertions overwrite earlier ones). -/
def loadLocalPlugins (env : Env) (searchpath : List String) (cache : LocalCache) :
    List (String × PluginInfo) :=
  match cache with
  | some m => m
  | none =>
      searchpath.foldl
        (fun m dir => (env.loadPluginsDir dir).foldl (fun m p => objInsert m p.id p) m) []

/-- The failure modes of a fetch. -/
inductive FetchError where
  | linkGitUnsupported
  | noRegistryNotFound (plugin : String)
  | registryFailure (msg : String)
  | gitFailure (msg : String)
  | idMismatch (expected actual : String)
deriving DecidableEq

instance : DecidableEq (Except FetchError String) := fun a b =>
  match a, b with
  | .ok x, .ok y =>
      if h : x = y then isTrue (by rw [h]) else isFalse (by intro hc; cases hc; exact h rfl)
  | .error x, .error y =>
      if h : x = y then isTrue (by rw [h]) else isFalse (by intro hc; cases hc; exact h rfl)
  | .ok _, .error _ => isFalse (by intro hc; cases hc)
  | .error _, .ok _ => isFalse (by intro hc; cases hc)

/-- The outcome of a fetch: its result (final directory or error), the
trace of side effects performed, and the localPlugins cache afterwards. -/
structure FetchOutcome where
  result : Except FetchError String
  trace : List Effect
  cache : LocalCache
deriving DecidableEq

/-- Prepend an effect to an outcome's trace. -/
def addEffect (e : Effect) (o : FetchOutcome) : FetchOutcome :=
  { o with trace := e :: o.trace }

/-- checkID: a no-op for a falsy expected id; otherwise compare the
expected id against the descriptor's id, extended with an at-sign and the
descriptor's version when the expected id's split at the at-sign has
more than one part (the split is modeled at the character-list level).
Returns the mismatching pair on failure. -/
def checkID (expected_id : Option String) (pinfo : PluginInfo) :
    Except (String × String) Unit :=
  match expected_id with
  | none => .ok ()
  | some e =>
      if e = "" then .ok ()
      else
        let id := if (e.toList.splitOn '@').length > 1 then pinfo.id ++ "@" ++ pinfo.version
                  else pinfo.id
        if e = id then .ok () else .error (e, id)

/-- copyPlugin at the effect level: read the descriptor at plugin_dir,
compute dest = plugins_dir/id, remove dest, then either symlink or
mkdir-and-copy, and finally save local fetch metadata beside dest. -/
def copyPlugin (env : Env) (plugin_dir plugins_dir : String) (link : Bool) :
    String × List Effect :=
  let pinfo := env.pluginInfoAt plugin_dir
  let dest := plugins_dir ++ "/" ++ pinfo.id
  let effs :=
    if link then [Effect.rmrf dest, Effect.symlinked plugin_dir dest]
    else [Effect.rmrf dest, Effect.mkdirp dest, Effect.copied plugin_dir dest]
  (dest, effs ++ [Effect.savedMeta dest (MetaData.localMeta plugin_dir)])

/-- The tail of the non-git branch: copyPlugin then checkID on the
destination (the copy's effects happen even when checkID then fails). -/
def finishLocal (env : Env) (dir plugins_dir : String) (options : FetchOptions)
    (linkable : Bool) (tr0 : List Effect) (cache : LocalCache) : FetchOutcome :=
  match checkID options.expected_id
      (env.pluginInfoAt (copyPlugin env dir plugins_dir (options.link && linkable)).1) with
  | .error p =>
      { result := .error (.idMismatch p.1 p.2)
        trace := tr0 ++ (copyPlugin env dir plugins_dir (options.link && linkable)).2
        cache := cache }
  | .ok _ =>
      { result := .ok (copyPlugin env dir plugins_dir (options.link && linkable)).1
        trace := tr0 ++ (copyPlugin env dir plugins_dir (options.link && linkable)).2
        cache := cache }

/-- The body of fetchPlugin after fragment handling: the git branch
(rejecting link, otherwise cloning, checking the id and saving git
metadata), or the non-git precedence chain of local path, search-path
cache hit, noregistry failure, registry fetch. -/
def fetchBody (env : Env) (plugin_src plugins_dir : String) (options : FetchOptions)
    (cache : LocalCache) : FetchOutcome :=
  if looksLikeNetworkUrl plugin_src then
    if options.link then
      { result := .error .linkGitUnsupported, trace := [], cache := cache }
    else
      match env.gitClone plugin_src plugins_dir with
      | .error e => { result := .error (.gitFailure e), trace := [.gitClone plugin_src], cache := cache }
      | .ok dir =>
          match checkID options.expected_id (env.pluginInfoAt dir) with
          | .error p =>
              { result := .error (.idMismatch p.1 p.2), trace := [.gitClone plugin_src], cache := cache }
          | .ok _ =>
              { result := .ok dir
                trace := [.gitClone plugin_src,
                          .savedMeta dir (MetaData.git plugin_src options.subdir options.git_ref)]
                cache := cache }
  else
    if env.fsExists (pathJoin plugin_src options.subdir) then
      finishLocal env (pathJoin plugin_src options.subdir) plugins_dir options true [] cache
    else
      match objGet (loadLocalPlugins env options.searchpath cache) plugin_src with
      | some pinfo =>
          finishLocal env pinfo.dir plugins_dir options true []
            (some (loadLocalPlugins env options.searchpath cache))
      | none =>
          if options.noregistry then
            { result := .error (.noRegistryNotFound plugin_src), trace := []
              cache := some (loadLocalPlugins env options.searchpath cache) }
          else
            match env.registryFetch plugin_src with
            | .error e =>
                { result := .error (.registryFailure e)
                  trace := [.registryFetch plugin_src]
                  cache := some (loadLocalPlugins env options.searchpath cache) }
            | .ok dir =>
                finishLocal env dir plugins_dir options false [.registryFetch plugin_src]
                  (some (loadLocalPlugins env options.searchpath cache))

theorem length_takeWhile_hash_lt (l : List Char) (hmem : '#' ∈ l) :
    (l.takeWhile (fun c => c ≠ '#')).length < l.length := by
  induction l with
  | nil => cases hmem
  | cons a as ih =>
      rw [List.takeWhile_cons]
      cases hb : (fun c => decide (c ≠ '#')) a with
      | false => simp [hb]
      | true =>
          have ha : a ≠ '#' := by simpa using hb
          have h1 : '#' ∈ as := by
            rcases List.mem_cons.mp hmem with h | h
            · exact absurd h.symm ha
            · exact h
          rw [if_pos hb]
          simp only [List.length_cons]
          exact Nat.succ_lt_succ (ih h1)

theorem length_truncateAtHash_lt (s : String) (h : s.toList.contains '#' = true) :
    (truncateAtHash s).toList.length < s.toList.length := by
  have hmem : '#' ∈ s.toList := by
    simpa using h
  exact length_takeWhile_hash_lt s.toList hmem

/-- fetchPlugin after option normalization: ensure the plugins directory,
strip one reference fragment into the options and recurse with the
truncated reference, then run the body. -/
def fetchPluginN (env : Env) (plugin_src plugins_dir : String) (options : FetchOptions)
    (cache : LocalCache) : FetchOutcome :=
  addEffect (.mkdirp plugins_dir)
    (match hm : uriHash plugin_src with
     | some h =>
         match matchFragment h with
         | some g =>
             fetchPluginN env (truncateAtHash plugin_src) plugins_dir
               (applyFragment options g.1 g.2) cache
         | none => fetchBody env plugin_src plugins_dir options cache
     | none => fetchBody env plugin_src plugins_dir options cache)
termination_by plugin_src.toList.length
decreasing_by
  apply length_truncateAtHash_lt
  by_contra hc
  unfold uriHash at hm
  rw [if_neg hc] at hm
  exact Option.noConfusion hm

/-- The public fetchPlugin entry: default the options, then run. -/
def fetchPlugin (env : Env) (plugin_src plugins_dir : String) (raw : RawOptions)
    (cache : LocalCache) : FetchOutcome :=
  fetchPluginN env plugin_src plugins_dir (normalizeOptions env.pathDelim raw) cache

/-! ### A concrete filesystem model for copyPlugin

For the materialization step itself the abstract effect trace is not
enough: its contract is about the contents of the final directory. Paths
are segment lists; a filesystem is a list of (path, entry) bindings. -/

/-- A filesystem path, as a list of segments. -/
abbrev FPath := List String

/-- A filesystem entry: a regular file or a directory symlink. -/
inductive FsEntry where
  | file (content : String)
  | symlink (target : FPath)
deriving DecidableEq

/-- A filesystem: bindings from paths to entries. -/
abbrev Fs := List (FPath × FsEntry)

/-- shell.rm('-rf', dest): drop dest itself and everything beneath it.
Removing a symlink removes the link, never its target. -/
def rmRf (dest : FPath) (fs : Fs) : Fs :=
  fs.filter (fun e => !(decide (dest <+: e.1)))

/-- Overwrite the file at path p with content c. -/
def writeFileAt (p : FPath) (c : String) (fs : Fs) : Fs :=
  fs.filter (fun e => !(decide (e.1 = p))) ++ [(p, FsEntry.file c)]

/-- shell.cp('-R', src-with-star-glob, dest): every entry strictly below
src whose top segment is not a dotfile (the star glob skips hidden
names) reappears below dest. -/
def cpGlob (src dest : FPath) (fs : Fs) : Fs :=
  fs.filterMap (fun e =>
    if src <+: e.1 then
      match e.1.drop src.length with
      | [] => none
      | seg :: rest =>
          if seg.startsWith "." then none else some (dest ++ seg :: rest, e.2)
    else none)

/-- The name of the fetch-metadata file written beside a materialized
plugin by save_fetch_metadata. -/
def fetchJsonName : String := ".fetch.json"

/-- copyPlugin over the concrete filesystem: compute
dest = plugins_dir/id from the descriptor at plugin_dir, remove dest
unconditionally, then symlink or copy, and write the fetch metadata at
dest (which, through a fresh directory symlink, lands in the link's
target directory). -/
def copyPluginFs (pluginIdAt : FPath → String) (plugin_dir plugins_dir : FPath)
    (link : Bool) (metaContent : String) (fs : Fs) : Fs :=
  let dest := plugins_dir ++ [pluginIdAt plugin_dir]
  let fs1 := rmRf dest fs
  if link then
    writeFileAt (plugin_dir ++ [fetchJsonName]) metaContent
      (fs1 ++ [(dest, FsEntry.symlink plugin_dir)])
  else
    writeFileAt (dest ++ [fetchJsonName]) metaContent (fs1 ++ cpGlob plugin_dir dest fs1)

end Fetch

namespace Mutator

/-!
### Platform plugin install/uninstall

Modelled from the spec: the android platform handler's installPlugin and
uninstallPlugin are not part of the sources here (only their tests are),
so the platform project mutator of spec sections 4.6 and 8 is modelled
from the spec's words. A project is its file set, its directory set, the
manifest's component entries (keyed by name) and the plugin-registry
entries (keyed by name and value); install copies each declared file
(creating missing ancestor directories) and adds the two document
entries; uninstall removes the entries by the same keys, deletes each
copied file, and cascade-deletes ancestor directories that are now
empty, never touching the fixed top-level source roots. The cascading
deletion is expressed by its closed form: a directory is deleted exactly
when it is not a root, lies on a deleted file's ancestor chain, and its
whole subtree (all directories beneath it included) contains no
remaining file, lies on such chains, and avoids the roots.
-/

/-- A project-relative path, as a list of segments. -/
abbrev Path := List String

/-- The plugin-declared mutations: target paths of copied files, one
manifest component entry (keyed by its name attribute) and one
plugin-registry entry (keyed by its name and value attributes). -/
structure PluginSpec where
  targets : List Path
  componentName : String
  componentPayload : String
  regName : String
  regValue : String
deriving DecidableEq

/-- A platform project tree together with its structured documents and
its fixed top-level source roots. -/
structure Project where
  files : List Path
  dirs : List Path
  manifest : List (String × String)
  pluginReg : List (String × String)
  roots : List Path
deriving DecidableEq

/-- The nonempty proper prefixes of a path: the ancestor directories a
file at that path lives under. -/
def properPrefixes (p : Path) : List Path :=
  (List.range p.length).filterMap (fun k => if k = 0 then none else some (p.take k))

/-- The ancestor directories of the copied files that do not exist yet
and are therefore created by install (mkdir -p). -/
def newDirs (targets : List Path) (dirs : List Path) : List Path :=
  ((targets.flatMap properPrefixes).dedup).filter (fun q => !(decide (q ∈ dirs)))

/-- installPlugin: copy each declared file to its target (creating the
missing ancestor directories), add the manifest component entry and the
plugin-registry entry. -/
def installPlugin (d : PluginSpec) (pr : Project) : Project :=
  { pr with
    files := pr.files ++ d.targets
    dirs := pr.dirs ++ newDirs d.targets pr.dirs
    manifest := pr.manifest ++ [(d.componentName, d.componentPayload)]
    pluginReg := pr.pluginReg ++ [(d.regName, d.regValue)] }

/-- A directory that the upward walk may delete on its own account: not
a source root, a proper ancestor of some deleted file, and containing no
remaining file. -/
def walkDeletable (d : PluginSpec) (remaining : List Path) (roots : List Path)
    (p : Path) : Prop :=
  p ∉ roots ∧ (∃ t ∈ d.targets, p <+: t ∧ p ≠ t) ∧
    ∀ f ∈ remaining, ¬(p <+: f ∧ p ≠ f)

instance (d : PluginSpec) (remaining roots : List Path) (p : Path) :
    Decidable (walkDeletable d remaining roots p) := by
  unfold walkDeletable
  infer_instance

/-- The closed form of the cascading deletion: a directory disappears
exactly when it is walk-deletable and every directory beneath it is
walk-deletable as well (so the walk empties the whole subtree). -/
def removableDir (d : PluginSpec) (remaining roots dirs : List Path) (p : Path) : Prop :=
  walkDeletable d remaining roots p ∧
    ∀ q ∈ dirs, (p <+: q ∧ p ≠ q) → walkDeletable d remaining roots q

instance (d : PluginSpec) (remaining roots dirs : List Path) (p : Path) :
    Decidable (removableDir d remaining roots dirs p) := by
  unfold removableDir
  infer_instance

/-- uninstallPlugin: remove the manifest entry and the registry entry by
their key attributes, delete each copied file, and cascade-delete the
ancestor directories that are now empty, stopping at the source roots. -/
def uninstallPlugin (d : PluginSpec) (pr : Project) : Project :=
  let files2 := pr.files.filter (fun f => !(decide (f ∈ d.targets)))
  { files := files2
    dirs := pr.dirs.filter (fun p => !(decide (removableDir d files2 pr.roots pr.dirs p)))
    manifest := pr.manifest.filter (fun e => !(decide (e.1 = d.componentName)))
    pluginReg := pr.pluginReg.filter
      (fun e => !(decide (e.1 = d.regName ∧ e.2 = d.regValue)))
    roots := pr.roots }

/-- Well-formedness of a project tree: ancestors of files are known
directories, the directory set is closed under ancestors, and the fixed
source roots are directories. -/
def Wf (pr : Project) : Prop :=
  (∀ f ∈ pr.files, ∀ q ∈ properPrefixes f, q ∈ pr.dirs) ∧
  (∀ p ∈ pr.dirs, ∀ q ∈ properPrefixes p, q ∈ pr.dirs) ∧
  (∀ r ∈ pr.roots, r ∈ pr.dirs)

/-- The plugin is new to the project: none of its files, nor its two
document entries, are present yet. -/
def FreshFor (d : PluginSpec) (pr : Project) : Prop :=
  (∀ t ∈ d.targets, t ∉ pr.files) ∧
  (∀ e ∈ pr.manifest, e.1 ≠ d.componentName) ∧
  (∀ e ∈ pr.pluginReg, ¬(e.1 = d.regName ∧ e.2 = d.regValue))

/-- Pre-existing ancestors of the plugin's files are either source roots
or non-empty in the original project (they hold some original file), so
the cascade never reaches a deletable pre-existing directory. -/
def AnchoredFor (d : PluginSpec) (pr : Project) : Prop :=
  ∀ p ∈ pr.dirs, (∃ t ∈ d.targets, p <+: t ∧ p ≠ t) →
    p ∈ pr.roots ∨ ∃ f ∈ pr.files, p <+: f ∧ p ≠ f

instance (pr : Project) : Decidable (Wf pr) := by
  unfold Wf
  infer_instance

instance (d : PluginSpec) (pr : Project) : Decidable (FreshFor d pr) := by
  unfold FreshFor
  infer_instance

instance (d : PluginSpec) (pr : Project) : Decidable (AnchoredFor d pr) := by
  unfold AnchoredFor
  infer_instance

/-- A concrete plugin shaped like the ChildBrowser test plugin: one java
source file in a nested new directory, one web asset, one manifest
activity entry and one plugin-registry entry. -/
def cbSpec : PluginSpec :=
  { targets := [["src", "com", "phonegap", "plugins", "childBrowser", "ChildBrowser.java"],
                ["assets", "www", "childbrowser.js"]]
    componentName := "com.phonegap.plugins.childBrowser.ChildBrowser"
    componentPayload := "activity"
    regName := "ChildBrowser"
    regValue := "com.phonegap.plugins.childBrowser.ChildBrowser" }

/-- A concrete android-two-shaped project: fixed source roots src,
assets and res, with pre-existing sibling content beneath them. -/
def androidProject : Project :=
  { files := [["AndroidManifest.xml"],
              ["src", "com", "example", "Main.java"],
              ["assets", "www", "index.html"],
              ["res", "xml", "config.xml"]]
    dirs := [["src"], ["src", "com"], ["src", "com", "example"],
             ["assets"], ["assets", "www"], ["res"], ["res", "xml"]]
    manifest := [("MainActivity", "activity")]
    pluginReg := [("App", "com.example.App")]
    roots := [["src"], ["assets"], ["res"]] }

end Mutator

namespace Fetch

/-- A descriptor used in search-path directory A of the test fixtures. -/
def pA : PluginInfo := { id := "x", version := "1.0.0", dir := "/sp/A/x" }

/-- A descriptor used in search-path directory B of the test fixtures. -/
def pB : PluginInfo := { id := "x", version := "2.0.0", dir := "/sp/B/x" }

/-- A concrete test environment, parametrized by the existence check:
two search-path directories A and B both holding plugin "x", a registry
that serves any identifier from /tmp/registry, a git collaborator that
clones into /tmp/git, and a descriptor reader that reports id "foo",
version "1.2.3" for every directory. -/
def baseEnv (ex : String → Bool) : Env :=
  { fsExists := ex
    loadPluginsDir := fun d => if d = "/sp/A" then [pA] else if d = "/sp/B" then [pB] else []
    pluginInfoAt := fun d => { id := "foo", version := "1.2.3", dir := d }
    registryFetch := fun i => .ok ("/tmp/registry/" ++ i)
    gitClone := fun _ _ => .ok "/tmp/git/clone"
    pathDelim := ":" }

/-- Raw options with everything defaulted / off. -/
def rawDefaults : RawOptions :=
  { link := false, subdir := none, git_ref := none, searchpath := .absent
    noregistry := false, expected_id := none }

end Fetch

/-! ## Helper lemmas -/

namespace Fetch

theorem uriHash_truncateAtHash (s : String) : uriHash (truncateAtHash s) = none := by
  have hneg : ¬((truncateAtHash s).toList.contains '#' = true) := by
    intro hc
    have hmem : '#' ∈ s.toList.takeWhile (fun c => decide (c ≠ '#')) := by
      simpa [truncateAtHash] using hc
    have h2 := List.mem_takeWhile_imp hmem
    simp at h2
  unfold uriHash
  rw [if_neg hneg]

theorem fetchPluginN_noHash (env : Env) (src pdir : String) (opts : FetchOptions)
    (cache : LocalCache) (h : uriHash src = none) :
    fetchPluginN env src pdir opts cache
      = addEffect (.mkdirp pdir) (fetchBody env src pdir opts cache) := by
  rw [fetchPluginN]
  congr 1
  split
  · next hfrag heq => rw [h] at heq; exact Option.noConfusion heq
  · rfl

theorem fetchPluginN_hash (env : Env) (src pdir : String) (opts : FetchOptions)
    (cache : LocalCache) (h : String) (g : String × Option String)
    (hh : uriHash src = some h) (hf : matchFragment h = some g) :
    fetchPluginN env src pdir opts cache
      = addEffect (.mkdirp pdir)
          (fetchPluginN env (truncateAtHash src) pdir (applyFragment opts g.1 g.2) cache) := by
  rw [fetchPluginN]
  congr 1
  split
  · next h1 heq =>
      rw [hh] at heq
      injection heq with heq2
      subst heq2
      rw [hf]
  · next heq => rw [hh] at heq; exact Option.noConfusion heq

theorem dropWhile_hash_shape (l : List Char) (hmem : '#' ∈ l) :
    ∃ r, l.dropWhile (fun c => decide (c ≠ '#')) = '#' :: r := by
  induction l with
  | nil => cases hmem
  | cons a as ih =>
      by_cases ha : a = '#'
      · subst ha
        refine ⟨as, ?_⟩
        rw [List.dropWhile_cons_of_neg]
        simp
      · have h1 : '#' ∈ as := by
          rcases List.mem_cons.mp hmem with h | h
          · exact absurd h.symm ha
          · exact h
        obtain ⟨r, hr⟩ := ih h1
        refine ⟨r, ?_⟩
        rw [List.dropWhile_cons_of_pos]
        · exact hr
        · simpa using ha

theorem matchFragment_of_uriHash (s h : String) (hh : uriHash s = some h) :
    ∃ g, matchFragment h = some g := by
  unfold uriHash at hh
  by_cases hc : s.toList.contains '#' = true
  · rw [if_pos hc] at hh
    injection hh with hh2
    have hmem : '#' ∈ s.toList := by simpa using hc
    obtain ⟨r, hr⟩ := dropWhile_hash_shape s.toList hmem
    have hlist : h.toList = '#' :: r := by
      rw [← hh2]
      exact hr
    have hred : matchFragment h =
        match r.dropWhile (fun c => decide (c ≠ ':')) with
        | [] => some (String.mk (r.takeWhile (fun c => decide (c ≠ ':'))), none)
        | _ :: tail => some (String.mk (r.takeWhile (fun c => decide (c ≠ ':'))),
            some (String.mk (dropTrailSlash (dropLeadSlash tail)))) := by
      unfold matchFragment
      rw [hlist]
      exact rfl
    rw [hred]
    cases hd : r.dropWhile (fun c => decide (c ≠ ':')) with
    | nil => exact ⟨_, rfl⟩
    | cons a tail => exact ⟨_, rfl⟩
  · rw [if_neg hc] at hh
    exact Option.noConfusion hh

end Fetch

namespace Fetch

theorem rmRf_append (d : FPath) (l1 l2 : Fs) :
    rmRf d (l1 ++ l2) = rmRf d l1 ++ rmRf d l2 := by
  unfold rmRf
  exact List.filter_append l1 l2

theorem rmRf_idem (d : FPath) (l : Fs) : rmRf d (rmRf d l) = rmRf d l := by
  unfold rmRf
  rw [List.filter_filter]
  apply List.filter_congr
  intro a _
  rw [Bool.and_self]

theorem rmRf_filter (d : FPath) (q : FPath × FsEntry → Bool) (l : Fs) :
    rmRf d (l.filter q) = (rmRf d l).filter q := by
  unfold rmRf
  rw [List.filter_filter, List.filter_filter]
  apply List.filter_congr
  intro a _
  rw [Bool.and_comm]

theorem mem_cpGlob_prefix (src dest : FPath) (fs : Fs) (e : FPath × FsEntry)
    (h : e ∈ cpGlob src dest fs) : dest <+: e.1 := by
  unfold cpGlob at h
  rw [List.mem_filterMap] at h
  obtain ⟨a, _, ha⟩ := h
  split at ha
  · split at ha
    · exact Option.noConfusion ha
    · split at ha
      · exact Option.noConfusion ha
      · injection ha with ha2
        rw [← ha2]
        exact List.prefix_append dest _
  · exact Option.noConfusion ha

theorem rmRf_cpGlob (src d : FPath) (fs : Fs) : rmRf d (cpGlob src d fs) = [] := by
  unfold rmRf
  rw [List.filter_eq_nil_iff]
  intro e he
  have hp := mem_cpGlob_prefix src d fs e he
  simp [hp]

theorem rmRf_entries_ne (d : FPath) (l : Fs) (p : FPath) (hp : d <+: p) :
    (rmRf d l).filter (fun e => !(decide (e.1 = p))) = rmRf d l := by
  rw [List.filter_eq_self]
  intro e he
  rw [rmRf, List.mem_filter] at he
  have h2 := he.2
  simp at h2 ⊢
  intro hep
  exact h2 (hep ▸ hp)

/-- The contents landing at the final directory are a function of the
source alone: re-running the removal on a materialized store restores
the state the first copy started from (up to the metadata file, which is
rewritten identically). -/
theorem rmRf_copyPluginFs_copy (pid : FPath → String) (pd psd : FPath) (mc : String)
    (fs : Fs) :
    rmRf (psd ++ [pid pd]) (copyPluginFs pid pd psd false mc fs)
      = rmRf (psd ++ [pid pd]) fs := by
  unfold copyPluginFs writeFileAt
  simp only [Bool.false_eq_true, if_false]
  rw [rmRf_append, rmRf_filter, rmRf_append, rmRf_idem, rmRf_cpGlob, List.append_nil]
  rw [rmRf_entries_ne _ _ _ (List.prefix_append _ _)]
  have hsingle : rmRf (psd ++ [pid pd]) [(psd ++ [pid pd] ++ [fetchJsonName], FsEntry.file mc)]
      = [] := by
    simp [rmRf, List.prefix_append]
  rw [hsingle, List.append_nil]

end Fetch

namespace Fetch

theorem copyPluginFs_congr_copy (pid : FPath → String) (pd psd : FPath) (mc : String)
    (fs1 fs2 : Fs) (h : rmRf (psd ++ [pid pd]) fs1 = rmRf (psd ++ [pid pd]) fs2) :
    copyPluginFs pid pd psd false mc fs1 = copyPluginFs pid pd psd false mc fs2 := by
  unfold copyPluginFs
  simp only [Bool.false_eq_true, if_false]
  rw [h]

theorem copyPluginFs_congr_link (pid : FPath → String) (pd psd : FPath) (mc : String)
    (fs1 fs2 : Fs)
    (h : (rmRf (psd ++ [pid pd]) fs1).filter
            (fun e => !(decide (e.1 = pd ++ [fetchJsonName])))
        = (rmRf (psd ++ [pid pd]) fs2).filter
            (fun e => !(decide (e.1 = pd ++ [fetchJsonName])))) :
    copyPluginFs pid pd psd true mc fs1 = copyPluginFs pid pd psd true mc fs2 := by
  unfold copyPluginFs writeFileAt
  simp only [if_true]
  rw [List.filter_append, List.filter_append, h]

theorem rmRf_copyPluginFs_link (pid : FPath → String) (pd psd : FPath) (mc : String)
    (fs : Fs) :
    (rmRf (psd ++ [pid pd]) (copyPluginFs pid pd psd true mc fs)).filter
        (fun e => !(decide (e.1 = pd ++ [fetchJsonName])))
      = (rmRf (psd ++ [pid pd]) fs).filter
        (fun e => !(decide (e.1 = pd ++ [fetchJsonName]))) := by
  unfold copyPluginFs writeFileAt
  simp only [if_true]
  rw [rmRf_append, rmRf_filter, rmRf_append]
  have h1 : rmRf (psd ++ [pid pd]) [((psd ++ [pid pd]), FsEntry.symlink pd)] = [] := by
    simp [rmRf]
  rw [h1, List.append_nil, rmRf_idem]
  rw [List.filter_append, List.filter_filter]
  have h2 : (rmRf (psd ++ [pid pd]) [(pd ++ [fetchJsonName], FsEntry.file mc)]).filter
      (fun e => !(decide (e.1 = pd ++ [fetchJsonName]))) = [] := by
    rw [List.filter_eq_nil_iff]
    intro e he
    have hmem := (List.mem_filter.mp he).1
    have he1 : e = (pd ++ [fetchJsonName], FsEntry.file mc) := by simpa using hmem
    rw [he1]
    simp
  rw [h2, List.append_nil]
  apply List.filter_congr
  intro a _
  rw [Bool.and_self]

end Fetch

namespace Fetch

theorem applyFragment_link (o : FetchOptions) (g1 : String) (g2 : Option String) :
    (applyFragment o g1 g2).link = o.link := by
  unfold applyFragment
  cases g2 with
  | none => split <;> rfl
  | some s => dsimp only; split <;> split <;> rfl

theorem finishLocal_trace (env : Env) (dir psd : String) (o : FetchOptions)
    (linkable : Bool) (tr0 : List Effect) (cache : LocalCache) :
    (finishLocal env dir psd o linkable tr0 cache).trace
      = tr0 ++ (copyPlugin env dir psd (o.link && linkable)).2 := by
  unfold finishLocal
  cases checkID o.expected_id
      (env.pluginInfoAt (copyPlugin env dir psd (o.link && linkable)).1) <;> rfl

theorem finishLocal_cache (env : Env) (dir psd : String) (o : FetchOptions)
    (linkable : Bool) (tr0 : List Effect) (cache : LocalCache) :
    (finishLocal env dir psd o linkable tr0 cache).cache = cache := by
  unfold finishLocal
  cases checkID o.expected_id
      (env.pluginInfoAt (copyPlugin env dir psd (o.link && linkable)).1) <;> rfl

theorem finishLocal_of_no_expected (env : Env) (dir psd : String) (o : FetchOptions)
    (linkable : Bool) (tr0 : List Effect) (cache : LocalCache)
    (hid : o.expected_id = none) :
    finishLocal env dir psd o linkable tr0 cache
      = { result := .ok (copyPlugin env dir psd (o.link && linkable)).1
          trace := tr0 ++ (copyPlugin env dir psd (o.link && linkable)).2
          cache := cache } := by
  unfold finishLocal
  rw [hid]
  rfl

theorem copyPlugin_no_clone (env : Env) (dir psd : String) (lk : Bool) (u : String) :
    Effect.gitClone u ∉ (copyPlugin env dir psd lk).2 := by
  unfold copyPlugin
  cases lk <;> simp

theorem fetchBody_link_no_clone (env : Env) (src psd : String) (o : FetchOptions)
    (cache : LocalCache) (hl : o.link = true) (u : String) :
    Effect.gitClone u ∉ (fetchBody env src psd o cache).trace := by
  unfold fetchBody
  by_cases hnet : looksLikeNetworkUrl src = true
  · rw [if_pos hnet, if_pos hl]
    simp
  · rw [if_neg hnet]
    by_cases hex : env.fsExists (pathJoin src o.subdir) = true
    · rw [if_pos hex, finishLocal_trace]
      simp
      exact fun h => copyPlugin_no_clone env _ psd _ u h
    · rw [if_neg hex]
      cases hobj : objGet (loadLocalPlugins env o.searchpath cache) src with
      | some pinfo =>
          rw [finishLocal_trace]
          simp
          exact fun h => copyPlugin_no_clone env _ psd _ u h
      | none =>
          by_cases hnr : o.noregistry = true
          · rw [if_pos hnr]
            simp
          · rw [if_neg hnr]
            cases hreg : env.registryFetch src with
            | error e => simp
            | ok dir =>
                rw [finishLocal_trace]
                simp
                exact fun h => copyPlugin_no_clone env _ psd _ u h

end Fetch

namespace Fetch

theorem length_modifyHead (f : List Char → List Char) (l : List (List Char)) :
    (l.modifyHead f).length = l.length := by
  cases l <;> rfl

theorem splitOn_length_eq_one (l : List Char) (h : '@' ∉ l) :
    (l.splitOn '@').length = 1 := by
  unfold List.splitOn
  rw [List.splitOnP_eq_single]
  · rfl
  · intro x hx
    simp only [beq_iff_eq]
    intro hc
    exact h (hc ▸ hx)

theorem splitOn_length_gt_one (l : List Char) (h : '@' ∈ l) :
    (l.splitOn '@').length > 1 := by
  induction l with
  | nil => cases h
  | cons a as ih =>
      by_cases ha : a = '@'
      · subst ha
        unfold List.splitOn
        rw [List.splitOnP_cons]
        simp only [beq_self_eq_true, if_true, List.length_cons]
        have h2 : as.splitOnP (· == '@') ≠ [] := List.splitOnP_ne_nil _ as
        have h3 : 0 < (as.splitOnP (· == '@')).length := List.length_pos.mpr h2
        omega
      · have h1 : '@' ∈ as := by
          rcases List.mem_cons.mp h with h2 | h2
          · exact absurd h2.symm ha
          · exact h2
        have h4 := ih h1
        unfold List.splitOn at h4 ⊢
        rw [List.splitOnP_cons]
        have hb : (a == '@') = false := by simpa using ha
        rw [hb]
        simpa [length_modifyHead] using h4

theorem append_at_inj (a : List Char) : ∀ (c b d : List Char), '@' ∉ a → '@' ∉ c →
    a ++ '@' :: b = c ++ '@' :: d → a = c ∧ b = d := by
  induction a with
  | nil =>
      intro c b d ha hc h
      cases c with
      | nil =>
          rw [List.nil_append, List.nil_append] at h
          exact ⟨rfl, List.tail_eq_of_cons_eq h⟩
      | cons x c2 =>
          rw [List.nil_append] at h
          have hx : x = '@' := (List.head_eq_of_cons_eq h.symm)
          exact absurd (hx ▸ List.mem_cons_self x c2) hc
  | cons x a2 ih =>
      intro c b d ha hc h
      cases c with
      | nil =>
          rw [List.nil_append] at h
          have hx : x = '@' := (List.head_eq_of_cons_eq h)
          exact absurd (hx ▸ List.mem_cons_self x a2) ha
      | cons y c2 =>
          rw [List.cons_append, List.cons_append] at h
          have hxy : x = y := List.head_eq_of_cons_eq h
          have htail : a2 ++ '@' :: b = c2 ++ '@' :: d := List.tail_eq_of_cons_eq h
          have ha2 : '@' ∉ a2 := fun hmm => ha (List.mem_cons_of_mem x hmm)
          have hc2 : '@' ∉ c2 := fun hmm => hc (List.mem_cons_of_mem y hmm)
          obtain ⟨he1, he2⟩ := ih c2 b d ha2 hc2 htail
          exact ⟨by rw [hxy, he1], he2⟩

end Fetch

namespace Fetch

theorem dropLeadSlash_of_head (l : List Char) (h : l.head? ≠ some '/') :
    dropLeadSlash l = l := by
  unfold dropLeadSlash
  split
  · next r => simp at h
  · rfl

theorem dropTrailSlash_of_getLast (l : List Char) (h : l.getLast? ≠ some '/') :
    dropTrailSlash l = l := by
  unfold dropTrailSlash
  rw [if_neg h]

theorem dropTrailSlash_concat_slash (l : List Char) :
    dropTrailSlash (l ++ ['/']) = l := by
  unfold dropTrailSlash
  rw [if_pos]
  · exact List.dropLast_concat
  · exact List.getLast?_concat l

end Fetch

namespace Mutator

theorem mem_properPrefixes (q t : Path) :
    q ∈ properPrefixes t ↔ q ≠ [] ∧ q <+: t ∧ q ≠ t := by
  unfold properPrefixes
  rw [List.mem_filterMap]
  constructor
  · rintro ⟨k, hk, hq⟩
    rw [List.mem_range] at hk
    by_cases h0 : k = 0
    · rw [if_pos h0] at hq
      exact Option.noConfusion hq
    · rw [if_neg h0] at hq
      injection hq with hq2
      subst hq2
      have hlen : (t.take k).length = k := by
        rw [List.length_take]
        omega
      refine ⟨?_, List.take_prefix k t, ?_⟩
      · intro hnil
        rw [hnil] at hlen
        simp at hlen
        omega
      · intro heq
        have hlen2 := congrArg List.length heq
        rw [hlen] at hlen2
        omega
  · rintro ⟨hne, hpre, hneq⟩
    refine ⟨q.length, ?_, ?_⟩
    · rw [List.mem_range]
      have hle := hpre.length_le
      rcases Nat.lt_or_ge q.length t.length with hlt | hge
      · exact hlt
      · exact absurd (hpre.eq_of_length (by omega)) hneq
    · have h0 : q.length ≠ 0 := by
        intro h00
        exact hne (List.eq_nil_of_length_eq_zero h00)
      rw [if_neg h0]
      rw [← List.prefix_iff_eq_take.mp hpre]

theorem mem_newDirs (T D : List Path) (p : Path) :
    p ∈ newDirs T D ↔ ((∃ t ∈ T, p ∈ properPrefixes t) ∧ p ∉ D) := by
  unfold newDirs
  rw [List.mem_filter, List.mem_dedup, List.mem_flatMap]
  simp

theorem newDirs_walkDeletable (d : PluginSpec) (F D Rt : List Path)
    (hwf1 : ∀ f ∈ F, ∀ q ∈ properPrefixes f, q ∈ D)
    (hwf3 : ∀ r ∈ Rt, r ∈ D)
    (p : Path) (hp : p ∈ newDirs d.targets D) :
    walkDeletable d F Rt p := by
  rw [mem_newDirs] at hp
  obtain ⟨⟨t, ht, hpp⟩, hnd⟩ := hp
  rw [mem_properPrefixes] at hpp
  obtain ⟨hne, hpre, hneq⟩ := hpp
  refine ⟨?_, ⟨t, ht, hpre, hneq⟩, ?_⟩
  · intro hr
    exact hnd (hwf3 p hr)
  · intro f hfm hcon
    obtain ⟨hpf, hpnef⟩ := hcon
    have hppf : p ∈ properPrefixes f := (mem_properPrefixes p f).mpr ⟨hne, hpf, hpnef⟩
    exact hnd (hwf1 f hfm p hppf)

theorem newDirs_removable (d : PluginSpec) (F D Rt : List Path)
    (hwf1 : ∀ f ∈ F, ∀ q ∈ properPrefixes f, q ∈ D)
    (hwf2 : ∀ p ∈ D, ∀ q ∈ properPrefixes p, q ∈ D)
    (hwf3 : ∀ r ∈ Rt, r ∈ D)
    (p : Path) (hp : p ∈ newDirs d.targets D) :
    removableDir d F Rt (D ++ newDirs d.targets D) p := by
  refine ⟨newDirs_walkDeletable d F D Rt hwf1 hwf3 p hp, ?_⟩
  intro q hq hpq
  rcases List.mem_append.mp hq with hq1 | hq2
  · exfalso
    rw [mem_newDirs] at hp
    have hne : p ≠ [] := by
      obtain ⟨⟨t, ht, hpp⟩, _⟩ := hp
      exact ((mem_properPrefixes p t).mp hpp).1
    have hppq : p ∈ properPrefixes q := (mem_properPrefixes p q).mpr ⟨hne, hpq.1, hpq.2⟩
    exact hp.2 (hwf2 q hq1 p hppq)
  · exact newDirs_walkDeletable d F D Rt hwf1 hwf3 q hq2

theorem orig_not_removable (d : PluginSpec) (F D Rt dirs1 : List Path)
    (ha : ∀ p ∈ D, (∃ t ∈ d.targets, p <+: t ∧ p ≠ t) →
      p ∈ Rt ∨ ∃ f ∈ F, p <+: f ∧ p ≠ f)
    (p : Path) (hp : p ∈ D) :
    ¬ removableDir d F Rt dirs1 p := by
  rintro ⟨⟨hnr, hchain, hnofile⟩, _⟩
  rcases ha p hp hchain with hroot | ⟨f, hfm, hff⟩
  · exact hnr hroot
  · exact hnofile f hfm hff

end Mutator

namespace Mutator

/-- C2: For every plugin/platform pair, uninstall after install restores
the project tree to its pre-install file set and document content: the
added manifest component entry and plugin-registry entry are removed by
their key attributes, each copied file is deleted, and every ancestor
directory the install newly created and is now empty is cascade-deleted,
while the fixed top-level source roots and pre-existing sibling content
are never deleted. Holds for every well-formed project in which the
plugin is fresh and every pre-existing ancestor of a plugin file is a
source root or holds some pre-existing file. -/
theorem c2_install_uninstall_roundtrip (d : PluginSpec) (pr : Project)
    (hwf : Wf pr) (hfr : FreshFor d pr) (ha : AnchoredFor d pr) :
    uninstallPlugin d (installPlugin d pr) = pr := by
  obtain ⟨F, D, M, R, Rt⟩ := pr
  obtain ⟨hwf1, hwf2, hwf3⟩ := hwf
  obtain ⟨hfr1, hfr2, hfr3⟩ := hfr
  simp only [Wf] at hwf1 hwf2 hwf3
  unfold installPlugin uninstallPlugin
  dsimp only
  have hfiles : (F ++ d.targets).filter (fun f => !(decide (f ∈ d.targets))) = F := by
    rw [List.filter_append]
    have h1 : d.targets.filter (fun f => !(decide (f ∈ d.targets))) = [] := by
      rw [List.filter_eq_nil_iff]
      intro t ht
      simp [ht]
    have h2 : F.filter (fun f => !(decide (f ∈ d.targets))) = F := by
      rw [List.filter_eq_self]
      intro f hfm
      simp only [Bool.not_eq_eq_eq_not, Bool.not_true, decide_eq_false_iff_not]
      intro hc
      exact (hfr1 f hc) hfm
    rw [h1, h2, List.append_nil]
  rw [hfiles]
  have hdirs : (D ++ newDirs d.targets D).filter
      (fun p => !(decide (removableDir d F Rt (D ++ newDirs d.targets D) p))) = D := by
    rw [List.filter_append]
    have h1 : (newDirs d.targets D).filter
        (fun p => !(decide (removableDir d F Rt (D ++ newDirs d.targets D) p))) = [] := by
      rw [List.filter_eq_nil_iff]
      intro p hp
      simp only [Bool.not_eq_eq_eq_not, Bool.not_true, decide_eq_false_iff_not,
        Bool.not_eq_true, decide_eq_true_eq]
      intro hc
      exact hc (newDirs_removable d F D Rt hwf1 hwf2 hwf3 p hp)
    have h2 : D.filter
        (fun p => !(decide (removableDir d F Rt (D ++ newDirs d.targets D) p))) = D := by
      rw [List.filter_eq_self]
      intro p hp
      simp only [Bool.not_eq_eq_eq_not, Bool.not_true, decide_eq_false_iff_not]
      exact orig_not_removable d F D Rt (D ++ newDirs d.targets D) ha p hp
    rw [h1, h2, List.append_nil]
  have hman : (M ++ [(d.componentName, d.componentPayload)]).filter
      (fun e => !(decide (e.1 = d.componentName))) = M := by
    rw [List.filter_append]
    have h1 : ([((d.componentName : String), d.componentPayload)]).filter
        (fun e => !(decide (e.1 = d.componentName))) = [] := by
      simp
    have h2 : M.filter (fun e => !(decide (e.1 = d.componentName))) = M := by
      rw [List.filter_eq_self]
      intro e he
      simp only [Bool.not_eq_eq_eq_not, Bool.not_true, decide_eq_false_iff_not]
      exact hfr2 e he
    rw [h1, h2, List.append_nil]
  have hreg : (R ++ [(d.regName, d.regValue)]).filter
      (fun e => !(decide (e.1 = d.regName ∧ e.2 = d.regValue))) = R := by
    rw [List.filter_append]
    have h1 : ([((d.regName : String), d.regValue)]).filter
        (fun e => !(decide (e.1 = d.regName ∧ e.2 = d.regValue))) = [] := by
      simp
    have h2 : R.filter (fun e => !(decide (e.1 = d.regName ∧ e.2 = d.regValue))) = R := by
      rw [List.filter_eq_self]
      intro e he
      simp only [Bool.not_eq_eq_eq_not, Bool.not_true, decide_eq_false_iff_not]
      exact hfr3 e he
    rw [h1, h2, List.append_nil]
  rw [hdirs, hman, hreg]

end Mutator

namespace Mutator

/-- Witness for C2: install then uninstall of the ChildBrowser-shaped
plugin on the android-two-shaped project restores it exactly. -/
theorem c2_install_uninstall_roundtrip_witness :
    Wf androidProject ∧ FreshFor cbSpec androidProject ∧ AnchoredFor cbSpec androidProject ∧
      uninstallPlugin cbSpec (installPlugin cbSpec androidProject) = androidProject :=
  ⟨by decide, by decide, by decide,
    c2_install_uninstall_roundtrip cbSpec androidProject (by decide) (by decide) (by decide)⟩

end Mutator

namespace Fetch

/-- C5: checkID with expected id "foo@1.2.3" succeeds iff the descriptor
has id "foo" and version exactly "1.2.3" (string equality); with expected
id "foo" (no at-sign) it succeeds iff the id is "foo", for any version;
with no expected id it is a no-op; on any discrepancy it fails with the
mismatching pair. Stated for every expected id/version whose id part is
at-sign free, over descriptors whose id follows the id[@version] grammar
(no at-sign in the id). -/
theorem c5_checkID_spec (pinfo : PluginInfo) (e_id e_ver : String)
    (hid : '@' ∉ pinfo.id.toList) (he : '@' ∉ e_id.toList) (hne : e_id ≠ "") :
    (checkID (some (e_id ++ "@" ++ e_ver)) pinfo = .ok ()
        ↔ pinfo.id = e_id ∧ pinfo.version = e_ver)
    ∧ (checkID (some e_id) pinfo = .ok () ↔ pinfo.id = e_id)
    ∧ checkID none pinfo = .ok () := by
  have hlist : (e_id ++ "@" ++ e_ver).toList = e_id.toList ++ '@' :: e_ver.toList := by
    show (e_id ++ "@" ++ e_ver).data = e_id.data ++ '@' :: e_ver.data
    rw [String.data_append, String.data_append, List.append_assoc]
    rfl
  have hlist2 : (pinfo.id ++ "@" ++ pinfo.version).toList
      = pinfo.id.toList ++ '@' :: pinfo.version.toList := by
    show (pinfo.id ++ "@" ++ pinfo.version).data
        = pinfo.id.data ++ '@' :: pinfo.version.data
    rw [String.data_append, String.data_append, List.append_assoc]
    rfl
  refine ⟨?_, ?_, rfl⟩
  · have hne2 : e_id ++ "@" ++ e_ver ≠ "" := by
      intro hc
      have h3 := congrArg String.toList hc
      rw [hlist] at h3
      simp at h3
    have hgt : ((e_id ++ "@" ++ e_ver).toList.splitOn '@').length > 1 := by
      apply splitOn_length_gt_one
      rw [hlist]
      exact List.mem_append_right _ (List.mem_cons_self _ _)
    simp only [checkID]
    rw [if_neg hne2, if_pos hgt]
    constructor
    · intro hok
      by_cases hcase : (e_id ++ "@" ++ e_ver) = pinfo.id ++ "@" ++ pinfo.version
      · have h2 := congrArg String.toList hcase
        rw [hlist, hlist2] at h2
        obtain ⟨ha2, hb2⟩ := append_at_inj e_id.toList pinfo.id.toList e_ver.toList
          pinfo.version.toList he hid h2
        exact ⟨String.ext ha2.symm, String.ext hb2.symm⟩
      · rw [if_neg hcase] at hok
        exact Except.noConfusion hok
    · rintro ⟨h1, h2⟩
      rw [h1, h2, if_pos rfl]
  · have hone : (e_id.toList.splitOn '@').length = 1 := splitOn_length_eq_one e_id.toList he
    have hngt : ¬ ((e_id.toList.splitOn '@').length > 1) := by omega
    simp only [checkID]
    rw [if_neg hne, if_neg hngt]
    constructor
    · intro hok
      by_cases hcase : e_id = pinfo.id
      · exact hcase.symm
      · rw [if_neg hcase] at hok
        exact Except.noConfusion hok
    · intro h1
      rw [h1, if_pos rfl]

/-- Witness for C5 at a concrete descriptor and expected ids. -/
theorem c5_checkID_spec_witness :
    ('@' ∉ ("foo" : String).toList) ∧ ("foo" : String) ≠ "" ∧
    (checkID (some ("foo" ++ "@" ++ "1.2.3")) { id := "foo", version := "1.2.3", dir := "/d" }
        = .ok ()
      ↔ ({ id := "foo", version := "1.2.3", dir := "/d" } : PluginInfo).id = "foo"
          ∧ ({ id := "foo", version := "1.2.3", dir := "/d" } : PluginInfo).version = "1.2.3") :=
  ⟨by decide, by decide,
    (c5_checkID_spec { id := "foo", version := "1.2.3", dir := "/d" } "foo" "1.2.3"
      (by decide) (by decide) (by decide)).1⟩

/-- C8: loadLocalPlugins builds the index at most once per process (a
second call, even with a different search path, returns the existing
index untouched), and when building it inserts descriptors in search-path
order, so a duplicate identifier found under A then B resolves to the
descriptor from B (later entry wins). -/
theorem c8_local_index (env : Env) (sp2 : List String) (m : List (String × PluginInfo))
    (A B : String) (p q : PluginInfo)
    (hA : env.loadPluginsDir A = [p]) (hB : env.loadPluginsDir B = [q])
    (hid : p.id = q.id) :
    loadLocalPlugins env sp2 (some m) = m
    ∧ objGet (loadLocalPlugins env [A, B] none) q.id = some q := by
  constructor
  · rfl
  · unfold loadLocalPlugins
    rw [List.foldl_cons, List.foldl_cons, List.foldl_nil, hA, hB]
    rw [List.foldl_cons, List.foldl_nil, List.foldl_cons, List.foldl_nil]
    unfold objInsert objGet
    simp [hid]

/-- Witness for C8 on the concrete two-directory environment. -/
theorem c8_local_index_witness :
    (baseEnv (fun _ => false)).loadPluginsDir "/sp/A" = [pA]
    ∧ (baseEnv (fun _ => false)).loadPluginsDir "/sp/B" = [pB]
    ∧ pA.id = pB.id
    ∧ loadLocalPlugins (baseEnv (fun _ => false)) ["/other"] (some [("x", pA)]) = [("x", pA)]
    ∧ objGet (loadLocalPlugins (baseEnv (fun _ => false)) ["/sp/A", "/sp/B"] none) pB.id
        = some pB :=
  ⟨by decide, by decide, by decide,
    (c8_local_index (baseEnv (fun _ => false)) ["/other"] [("x", pA)] "/sp/A" "/sp/B" pA pB
      (by decide) (by decide) (by decide)).1,
    (c8_local_index (baseEnv (fun _ => false)) ["/other"] [("x", pA)] "/sp/A" "/sp/B" pA pB
      (by decide) (by decide) (by decide)).2⟩

/-- C10: a searchpath supplied as a single (nonempty) string is split on
the path delimiter into an ordered list before any resolution, and an
absent searchpath defaults to the empty list, so the two forms fetch
identically. -/
theorem c10_searchpath_defaulting (env : Env) (src psd : String) (raw : RawOptions)
    (s : String) (cache : LocalCache) (hs : s ≠ "") :
    fetchPlugin env src psd { raw with searchpath := .str s } cache
      = fetchPlugin env src psd { raw with searchpath := .list (s.splitOn env.pathDelim) } cache
    ∧ fetchPlugin env src psd { raw with searchpath := .absent } cache
      = fetchPlugin env src psd { raw with searchpath := .list [] } cache := by
  constructor
  · unfold fetchPlugin
    have hn : normalizeOptions env.pathDelim { raw with searchpath := .str s }
        = normalizeOptions env.pathDelim
            { raw with searchpath := .list (s.splitOn env.pathDelim) } := by
      unfold normalizeOptions
      simp [hs]
    rw [hn]
  · unfold fetchPlugin
    have hn : normalizeOptions env.pathDelim { raw with searchpath := .absent }
        = normalizeOptions env.pathDelim { raw with searchpath := .list [] } := rfl
    rw [hn]

/-- Witness for C10 at a concrete delimiter-joined searchpath. -/
theorem c10_searchpath_defaulting_witness :
    ("/sp/A:/sp/B" : String) ≠ ""
    ∧ fetchPlugin (baseEnv (fun _ => false)) "x" "/plugins"
        { rawDefaults with searchpath := .str "/sp/A:/sp/B" } none
      = fetchPlugin (baseEnv (fun _ => false)) "x" "/plugins"
        { rawDefaults with
            searchpath := .list ("/sp/A:/sp/B".splitOn (baseEnv (fun _ => false)).pathDelim) }
        none :=
  ⟨by decide,
    (c10_searchpath_defaulting (baseEnv (fun _ => false)) "x" "/plugins" rawDefaults
      "/sp/A:/sp/B" none (by decide)).1⟩

end Fetch

namespace Fetch

/-- C4: for a reference with a trailing ref:subdir fragment (both parts
nonempty), fetchPlugin yields the same result and cache as fetchPlugin on
the truncated reference with git_ref and subdir populated in the options;
and fragment parsing is idempotent: the truncated reference has no
fragment, so parsing it again is a no-op. -/
theorem c4_fragment_strip (env : Env) (src psd : String) (raw : RawOptions)
    (cache : LocalCache) (h : String) (g1 g2 : String)
    (hh : uriHash src = some h) (hf : matchFragment h = some (g1, some g2))
    (hg1 : g1 ≠ "") (hg2 : g2 ≠ "") :
    (fetchPlugin env src psd raw cache).result
        = (fetchPlugin env (truncateAtHash src) psd
            { raw with git_ref := some g1, subdir := some g2 } cache).result
    ∧ (fetchPlugin env src psd raw cache).cache
        = (fetchPlugin env (truncateAtHash src) psd
            { raw with git_ref := some g1, subdir := some g2 } cache).cache
    ∧ uriHash (truncateAtHash src) = none := by
  have hkey : fetchPlugin env src psd raw cache
      = addEffect (.mkdirp psd)
          (fetchPlugin env (truncateAtHash src) psd
            { raw with git_ref := some g1, subdir := some g2 } cache) := by
    unfold fetchPlugin
    rw [fetchPluginN_hash env src psd _ cache h (g1, some g2) hh hf]
    have hopts : applyFragment (normalizeOptions env.pathDelim raw) g1 (some g2)
        = normalizeOptions env.pathDelim
            { raw with git_ref := some g1, subdir := some g2 } := by
      unfold applyFragment normalizeOptions jsOr
      simp [hg1, hg2]
    rw [hopts]
  refine ⟨?_, ?_, uriHash_truncateAtHash src⟩
  · rw [hkey]
    rfl
  · rw [hkey]
    rfl

/-- Witness for C4 on a concrete git URL with a ref:subdir fragment. -/
theorem c4_fragment_strip_witness :
    uriHash "http://foo.com/bar#gitref:sub" = some "#gitref:sub"
    ∧ matchFragment "#gitref:sub" = some ("gitref", some "sub")
    ∧ ("gitref" : String) ≠ "" ∧ ("sub" : String) ≠ ""
    ∧ (fetchPlugin (baseEnv (fun _ => false)) "http://foo.com/bar#gitref:sub" "/plugins"
          rawDefaults none).result
      = (fetchPlugin (baseEnv (fun _ => false)) (truncateAtHash "http://foo.com/bar#gitref:sub")
          "/plugins" { rawDefaults with git_ref := some "gitref", subdir := some "sub" }
          none).result :=
  ⟨by decide, by decide, by decide, by decide,
    (c4_fragment_strip (baseEnv (fun _ => false)) "http://foo.com/bar#gitref:sub" "/plugins"
      rawDefaults none "#gitref:sub" "gitref" "sub"
      (by decide) (by decide) (by decide) (by decide)).1⟩

/-- C6: with options.link set, a reference that parses as a network-style
git URL always fails with the unsupported-operation error for linking git
URLs, and the git-clone collaborator is never invoked on any reference
(no gitClone effect ever appears in the trace while link is set). -/
theorem c6_link_git_unsupported (env : Env) (src psd : String) (o : FetchOptions)
    (cache : LocalCache) (hl : o.link = true) :
    (∀ u, Effect.gitClone u ∉ (fetchPluginN env src psd o cache).trace)
    ∧ (looksLikeNetworkUrl src = true → uriHash src = none →
        (fetchPluginN env src psd o cache).result = .error .linkGitUnsupported) := by
  constructor
  · intro u
    cases hh : uriHash src with
    | none =>
        rw [fetchPluginN_noHash env src psd o cache hh]
        intro hmem
        rcases List.mem_cons.mp hmem with h1 | h2
        · exact Effect.noConfusion h1
        · exact fetchBody_link_no_clone env src psd o cache hl u h2
    | some h =>
        obtain ⟨g, hg⟩ := matchFragment_of_uriHash src h hh
        rw [fetchPluginN_hash env src psd o cache h g hh hg]
        rw [fetchPluginN_noHash env _ psd _ cache (uriHash_truncateAtHash src)]
        intro hmem
        rcases List.mem_cons.mp hmem with h1 | hmem2
        · exact Effect.noConfusion h1
        · rcases List.mem_cons.mp hmem2 with h2 | h3
          · exact Effect.noConfusion h2
          · have hl2 : (applyFragment o g.1 g.2).link = true := by
              rw [applyFragment_link]
              exact hl
            exact fetchBody_link_no_clone env _ psd _ cache hl2 u h3
  · intro hnet hnone
    rw [fetchPluginN_noHash env src psd o cache hnone]
    show (fetchBody env src psd o cache).result = .error .linkGitUnsupported
    unfold fetchBody
    rw [if_pos hnet, if_pos hl]

/-- Witness for C6 on a concrete git URL with link requested. -/
theorem c6_link_git_unsupported_witness :
    ({ link := true, subdir := ".", git_ref := none, searchpath := [],
       noregistry := false, expected_id := none } : FetchOptions).link = true
    ∧ looksLikeNetworkUrl "http://example.com/repo.git" = true
    ∧ uriHash "http://example.com/repo.git" = none
    ∧ Effect.gitClone "http://example.com/repo.git"
        ∉ (fetchPluginN (baseEnv (fun _ => false)) "http://example.com/repo.git" "/plugins"
            { link := true, subdir := ".", git_ref := none, searchpath := [],
              noregistry := false, expected_id := none } none).trace
    ∧ (fetchPluginN (baseEnv (fun _ => false)) "http://example.com/repo.git" "/plugins"
            { link := true, subdir := ".", git_ref := none, searchpath := [],
              noregistry := false, expected_id := none } none).result
        = .error .linkGitUnsupported :=
  ⟨rfl, by decide, by decide,
    (c6_link_git_unsupported (baseEnv (fun _ => false)) "http://example.com/repo.git" "/plugins"
      { link := true, subdir := ".", git_ref := none, searchpath := [],
        noregistry := false, expected_id := none } none rfl).1
      "http://example.com/repo.git",
    (c6_link_git_unsupported (baseEnv (fun _ => false)) "http://example.com/repo.git" "/plugins"
      { link := true, subdir := ".", git_ref := none, searchpath := [],
        noregistry := false, expected_id := none } none rfl).2 (by decide) (by decide)⟩

/-- C9 as stated is violated on the repeated-separator input the claim
itself names: the fragment ref://sub// stores subdir "/sub/", which
carries both a leading and a trailing separator (the pattern strips at
most one separator on each side). -/
theorem c9_counterexample :
    matchFragment "#ref://sub//" = some ("ref", some "/sub/")
    ∧ (applyFragment (normalizeOptions ":" rawDefaults) "ref" (some "/sub/")).subdir = "/sub/"
    ∧ ("/sub/" : String).toList.head? = some '/'
    ∧ ("/sub/" : String).toList.getLast? = some '/' := by
  refine ⟨by decide, rfl, by decide, by decide⟩

/-- C9 amended: the fragment's subdir normalization strips exactly one
optional leading and one optional trailing separator, so the stored
subdir carries no leading or trailing separator whenever the raw subdir
part has at most one separator on each side; repeated separators
survive. -/
theorem c9_amended_single_separator (mid : List Char)
    (h1 : mid.head? ≠ some '/') (h2 : mid.getLast? ≠ some '/') :
    dropTrailSlash (dropLeadSlash mid) = mid
    ∧ dropTrailSlash (dropLeadSlash ('/' :: mid)) = mid
    ∧ dropTrailSlash (dropLeadSlash (mid ++ ['/'])) = mid
    ∧ dropTrailSlash (dropLeadSlash ('/' :: (mid ++ ['/']))) = mid := by
  refine ⟨?_, ?_, ?_, ?_⟩
  · rw [dropLeadSlash_of_head mid h1, dropTrailSlash_of_getLast mid h2]
  · show dropTrailSlash mid = mid
    exact dropTrailSlash_of_getLast mid h2
  · cases mid with
    | nil => decide
    | cons a as =>
        have hhead : ((a :: as) ++ ['/']).head? ≠ some '/' := by
          simp only [List.cons_append, List.head?_cons]
          simpa using h1
        rw [dropLeadSlash_of_head ((a :: as) ++ ['/']) hhead]
        exact dropTrailSlash_concat_slash (a :: as)
  · show dropTrailSlash (mid ++ ['/']) = mid
    exact dropTrailSlash_concat_slash mid

/-- Witness for the amended C9 at a concrete subdir. -/
theorem c9_amended_single_separator_witness :
    ("sub".toList.head? ≠ some '/')
    ∧ ("sub".toList.getLast? ≠ some '/')
    ∧ dropTrailSlash (dropLeadSlash ('/' :: ("sub".toList ++ ['/']))) = "sub".toList :=
  ⟨by decide, by decide,
    (c9_amended_single_separator "sub".toList (by decide) (by decide)).2.2.2⟩

end Fetch

namespace Fetch

theorem copyPlugin_false_no_symlink (env : Env) (dir psd : String) (a b : String) :
    Effect.symlinked a b ∉ (copyPlugin env dir psd false).2 := by
  unfold copyPlugin
  simp

/-- C1: for every non-git, fragment-free reference (with no expected-id
check configured), resolution follows the fixed precedence: an existing
local directory at path.join(reference, subdir) is materialized directly
with linking honored; otherwise an exact identifier hit in the local
search-path index is materialized with linking honored; otherwise with
noregistry set the fetch fails with the not-found error; otherwise the
registry collaborator is consulted and its result is materialized with
linking forced off, so it is copied and never symlinked even when
options.link is true. -/
theorem c1_nongit_precedence (env : Env) (src psd : String) (o : FetchOptions)
    (cache : LocalCache) (pinfo : PluginInfo) (dir : String)
    (hnh : uriHash src = none) (hnet : looksLikeNetworkUrl src = false)
    (hid : o.expected_id = none) :
    (env.fsExists (pathJoin src o.subdir) = true →
      fetchPluginN env src psd o cache
        = { result := .ok (copyPlugin env (pathJoin src o.subdir) psd o.link).1
            trace := .mkdirp psd :: (copyPlugin env (pathJoin src o.subdir) psd o.link).2
            cache := cache })
    ∧ (env.fsExists (pathJoin src o.subdir) = false →
        objGet (loadLocalPlugins env o.searchpath cache) src = some pinfo →
        fetchPluginN env src psd o cache
          = { result := .ok (copyPlugin env pinfo.dir psd o.link).1
              trace := .mkdirp psd :: (copyPlugin env pinfo.dir psd o.link).2
              cache := some (loadLocalPlugins env o.searchpath cache) })
    ∧ (env.fsExists (pathJoin src o.subdir) = false →
        objGet (loadLocalPlugins env o.searchpath cache) src = none →
        o.noregistry = true →
        fetchPluginN env src psd o cache
          = { result := .error (.noRegistryNotFound src)
              trace := [.mkdirp psd]
              cache := some (loadLocalPlugins env o.searchpath cache) })
    ∧ (env.fsExists (pathJoin src o.subdir) = false →
        objGet (loadLocalPlugins env o.searchpath cache) src = none →
        o.noregistry = false →
        env.registryFetch src = .ok dir →
        fetchPluginN env src psd o cache
          = { result := .ok (copyPlugin env dir psd false).1
              trace := .mkdirp psd :: .registryFetch src :: (copyPlugin env dir psd false).2
              cache := some (loadLocalPlugins env o.searchpath cache) }
          ∧ ∀ a b, Effect.symlinked a b ∉ (fetchPluginN env src psd o cache).trace) := by
  have hbody : fetchPluginN env src psd o cache
      = addEffect (.mkdirp psd) (fetchBody env src psd o cache) :=
    fetchPluginN_noHash env src psd o cache hnh
  have hnet2 : ¬ (looksLikeNetworkUrl src = true) := by
    rw [hnet]
    exact Bool.false_ne_true
  refine ⟨?_, ?_, ?_, ?_⟩
  · intro hex
    rw [hbody]
    unfold fetchBody
    rw [if_neg hnet2, if_pos hex, finishLocal_of_no_expected env _ psd o true [] cache hid]
    rw [Bool.and_true]
    rfl
  · intro hex hobj
    rw [hbody]
    unfold fetchBody
    rw [if_neg hnet2, if_neg (by rw [hex]; exact Bool.false_ne_true), hobj]
    dsimp only
    rw [finishLocal_of_no_expected env _ psd o true [] _ hid]
    rw [Bool.and_true]
    rfl
  · intro hex hobj hnr
    rw [hbody]
    unfold fetchBody
    rw [if_neg hnet2, if_neg (by rw [hex]; exact Bool.false_ne_true), hobj]
    dsimp only
    rw [if_pos hnr]
    rfl
  · intro hex hobj hnr hreg
    have hmain : fetchPluginN env src psd o cache
        = { result := .ok (copyPlugin env dir psd false).1
            trace := .mkdirp psd :: .registryFetch src :: (copyPlugin env dir psd false).2
            cache := some (loadLocalPlugins env o.searchpath cache) } := by
      rw [hbody]
      unfold fetchBody
      rw [if_neg hnet2, if_neg (by rw [hex]; exact Bool.false_ne_true), hobj]
      dsimp only
      rw [if_neg (by rw [hnr]; exact Bool.false_ne_true), hreg]
      dsimp only
      rw [finishLocal_of_no_expected env _ psd o false _ _ hid]
      rw [Bool.and_false]
      rfl
    refine ⟨hmain, ?_⟩
    intro a b hmem
    rw [hmain] at hmem
    rcases List.mem_cons.mp hmem with h1 | hmem2
    · exact Effect.noConfusion h1
    · rcases List.mem_cons.mp hmem2 with h2 | h3
      · exact Effect.noConfusion h2
      · exact copyPlugin_false_no_symlink env dir psd a b h3

/-- Witness for C1: the registry branch on a concrete environment with
link requested still copies, never symlinks. -/
theorem c1_nongit_precedence_witness :
    uriHash "some.plugin.id" = none
    ∧ looksLikeNetworkUrl "some.plugin.id" = false
    ∧ ({ link := true, subdir := ".", git_ref := none, searchpath := [],
         noregistry := false, expected_id := none } : FetchOptions).expected_id = none
    ∧ ((baseEnv (fun _ => false)).fsExists (pathJoin "some.plugin.id" ".") = false
    ∧ objGet (loadLocalPlugins (baseEnv (fun _ => false)) [] (some [])) "some.plugin.id" = none
    ∧ ({ link := true, subdir := ".", git_ref := none, searchpath := [],
         noregistry := false, expected_id := none } : FetchOptions).noregistry = false
    ∧ (baseEnv (fun _ => false)).registryFetch "some.plugin.id"
        = .ok "/tmp/registry/some.plugin.id"
    ∧ (fetchPluginN (baseEnv (fun _ => false)) "some.plugin.id" "/plugins"
          { link := true, subdir := ".", git_ref := none, searchpath := [],
            noregistry := false, expected_id := none } (some [])
        = { result := .ok (copyPlugin (baseEnv (fun _ => false))
              "/tmp/registry/some.plugin.id" "/plugins" false).1
            trace := .mkdirp "/plugins" :: .registryFetch "some.plugin.id"
              :: (copyPlugin (baseEnv (fun _ => false))
                    "/tmp/registry/some.plugin.id" "/plugins" false).2
            cache := some (loadLocalPlugins (baseEnv (fun _ => false)) [] (some [])) }
        ∧ ∀ a b, Effect.symlinked a b
            ∉ (fetchPluginN (baseEnv (fun _ => false)) "some.plugin.id" "/plugins"
                { link := true, subdir := ".", git_ref := none, searchpath := [],
                  noregistry := false, expected_id := none } (some [])).trace)) :=
  ⟨by decide, by decide, rfl,
    by decide, rfl, rfl, rfl,
    (c1_nongit_precedence (baseEnv (fun _ => false)) "some.plugin.id" "/plugins"
      { link := true, subdir := ".", git_ref := none, searchpath := [],
        noregistry := false, expected_id := none } (some [])
      pA "/tmp/registry/some.plugin.id" (by decide) (by decide) rfl).2.2.2
      (by decide) rfl rfl rfl⟩

end Fetch

namespace Fetch

/-- C3: copyPlugin is destructive-idempotent. It unconditionally removes
any pre-existing contents at finalDir = pluginsDir/id before copying or
linking, so running it twice with the same inputs leaves the whole
filesystem — in particular the final directory's contents — exactly as
after the first run, with no leftovers surviving. -/
theorem c3_copyPlugin_destructive_idempotent (pid : FPath → String) (pd psd : FPath)
    (link : Bool) (mc : String) (fs : Fs) :
    copyPluginFs pid pd psd link mc (copyPluginFs pid pd psd link mc fs)
      = copyPluginFs pid pd psd link mc fs := by
  cases link
  · exact copyPluginFs_congr_copy pid pd psd mc _ fs (rmRf_copyPluginFs_copy pid pd psd mc fs)
  · exact copyPluginFs_congr_link pid pd psd mc _ fs (rmRf_copyPluginFs_link pid pd psd mc fs)

/-- C7 as stated is violated: a registry-fetched plugin's persisted
fetch metadata records source type local (with the registry's temporary
directory as its path), not a registry source type. Shown on a concrete
environment whose registry serves the identifier from /tmp/registry. -/
theorem c7_counterexample :
    (fetchPluginN (baseEnv (fun _ => false)) "some.plugin.id" "/plugins"
        (normalizeOptions ":" rawDefaults) (some [])).trace
      = [Effect.mkdirp "/plugins", Effect.registryFetch "some.plugin.id",
         Effect.rmrf "/plugins/foo", Effect.mkdirp "/plugins/foo",
         Effect.copied "/tmp/registry/some.plugin.id" "/plugins/foo",
         Effect.savedMeta "/plugins/foo" (MetaData.localMeta "/tmp/registry/some.plugin.id")]
    ∧ (MetaData.localMeta "/tmp/registry/some.plugin.id").typeField = "local"
    ∧ (MetaData.localMeta "/tmp/registry/some.plugin.id").typeField ≠ "registry" := by
  refine ⟨?_, rfl, by decide⟩
  rw [fetchPluginN_noHash _ _ _ _ _ (by decide)]
  decide

/-- C7 amended: the persisted record captures the git origin (url,
subdir, ref) for git clones, while local-path, search-path and
registry-fetched sources are all persisted with source type local and
the resolved source directory as path — the registry origin is not
distinguished from a local one. -/
theorem c7_provenance_recorded (env : Env) (src psd : String) (o : FetchOptions)
    (cache : LocalCache) (dir : String) (hnh : uriHash src = none) :
    (looksLikeNetworkUrl src = true → o.link = false → o.expected_id = none →
      env.gitClone src psd = .ok dir →
      (fetchPluginN env src psd o cache).trace
        = [.mkdirp psd, .gitClone src,
           .savedMeta dir (MetaData.git src o.subdir o.git_ref)]
      ∧ (MetaData.git src o.subdir o.git_ref).typeField = "git")
    ∧ (looksLikeNetworkUrl src = false → env.fsExists (pathJoin src o.subdir) = true →
        Effect.savedMeta (psd ++ "/" ++ (env.pluginInfoAt (pathJoin src o.subdir)).id)
            (MetaData.localMeta (pathJoin src o.subdir))
          ∈ (fetchPluginN env src psd o cache).trace
        ∧ (MetaData.localMeta (pathJoin src o.subdir)).typeField = "local")
    ∧ (looksLikeNetworkUrl src = false → env.fsExists (pathJoin src o.subdir) = false →
        objGet (loadLocalPlugins env o.searchpath cache) src = none →
        o.noregistry = false → env.registryFetch src = .ok dir →
        Effect.savedMeta (psd ++ "/" ++ (env.pluginInfoAt dir).id) (MetaData.localMeta dir)
          ∈ (fetchPluginN env src psd o cache).trace
        ∧ (MetaData.localMeta dir).typeField = "local") := by
  have hbody : fetchPluginN env src psd o cache
      = addEffect (Effect.mkdirp psd) (fetchBody env src psd o cache) :=
    fetchPluginN_noHash env src psd o cache hnh
  have hmeta : ∀ (d2 : String) (lk : Bool),
      Effect.savedMeta (psd ++ "/" ++ (env.pluginInfoAt d2).id) (MetaData.localMeta d2)
        ∈ (copyPlugin env d2 psd lk).2 := by
    intro d2 lk
    unfold copyPlugin
    cases lk <;> simp
  refine ⟨?_, ?_, ?_⟩
  · intro hnet hl hid hclone
    rw [hbody]
    unfold fetchBody
    rw [if_pos hnet, if_neg (by rw [hl]; exact Bool.false_ne_true), hclone]
    dsimp only
    rw [hid]
    exact ⟨rfl, rfl⟩
  · intro hnet hex
    rw [hbody]
    unfold fetchBody
    rw [if_neg (by rw [hnet]; exact Bool.false_ne_true), if_pos hex]
    refine ⟨?_, rfl⟩
    show Effect.savedMeta _ _
        ∈ Effect.mkdirp psd :: (finishLocal env (pathJoin src o.subdir) psd o true [] cache).trace
    rw [finishLocal_trace, List.nil_append]
    exact List.mem_cons_of_mem _ (hmeta (pathJoin src o.subdir) (o.link && true))
  · intro hnet hex hobj hnr hreg
    rw [hbody]
    unfold fetchBody
    rw [if_neg (by rw [hnet]; exact Bool.false_ne_true),
      if_neg (by rw [hex]; exact Bool.false_ne_true), hobj]
    dsimp only
    rw [if_neg (by rw [hnr]; exact Bool.false_ne_true), hreg]
    dsimp only
    refine ⟨?_, rfl⟩
    show Effect.savedMeta _ _
        ∈ Effect.mkdirp psd :: (finishLocal env dir psd o false [Effect.registryFetch src]
            (some (loadLocalPlugins env o.searchpath cache))).trace
    rw [finishLocal_trace]
    exact List.mem_cons_of_mem _ (List.mem_append_right _ (hmeta dir (o.link && false)))

/-- Witness for the amended C7 on the concrete registry environment. -/
theorem c7_provenance_recorded_witness :
    uriHash "some.plugin.id" = none
    ∧ looksLikeNetworkUrl "some.plugin.id" = false
    ∧ (baseEnv (fun _ => false)).fsExists (pathJoin "some.plugin.id" ".") = false
    ∧ objGet (loadLocalPlugins (baseEnv (fun _ => false)) [] (some [])) "some.plugin.id" = none
    ∧ (normalizeOptions ":" rawDefaults).noregistry = false
    ∧ (baseEnv (fun _ => false)).registryFetch "some.plugin.id"
        = .ok "/tmp/registry/some.plugin.id"
    ∧ Effect.savedMeta
        ("/plugins" ++ "/"
          ++ ((baseEnv (fun _ => false)).pluginInfoAt "/tmp/registry/some.plugin.id").id)
        (MetaData.localMeta "/tmp/registry/some.plugin.id")
      ∈ (fetchPluginN (baseEnv (fun _ => false)) "some.plugin.id" "/plugins"
          (normalizeOptions ":" rawDefaults) (some [])).trace
    ∧ (MetaData.localMeta "/tmp/registry/some.plugin.id").typeField = "local" :=
  ⟨by decide, by decide, by decide, rfl, rfl, rfl,
    ((c7_provenance_recorded (baseEnv (fun _ => false)) "some.plugin.id" "/plugins"
        (normalizeOptions ":" rawDefaults) (some []) "/tmp/registry/some.plugin.id"
        (by decide)).2.2 (by decide) (by decide) rfl rfl rfl).1,
    ((c7_provenance_recorded (baseEnv (fun _ => false)) "some.plugin.id" "/plugins"
        (normalizeOptions ":" rawDefaults) (some []) "/tmp/registry/some.plugin.id"
        (by decide)).2.2 (by decide) (by decide) rfl rfl rfl).2⟩

end Fetch
